import Mathlib

/-!
Verification of the cursor-buffer / view library (`src/buffer/buffer.rs`,
`src/buffer/bytebuffer.rs`, `src/buffer/clone_bytebuffer.rs`).

Shallow embedding conventions:
* Rust `i32` values are modelled as `Int`; arithmetic where two's-complement
  wraparound matters (`Buffer::check_bounds`, `as usize` casts) is made
  explicit through `toU32` / `usizeOf`.
* Rust panics are modelled as `Except.error` carrying the panic message.
* `Vec<u8>` is modelled as `List Nat`; `Vec` indexing out of range is the
  error with message "index out of bounds" (a Rust index panic).
* `CloneByteBuffer.hb` is a `RefCell<Vec<u8>>` held *by value*; its `Clone`
  (used by `slice`) deep-copies the vector, so every `CloneByteBuffer`
  owns its byte store.  The embedding therefore gives each state its own
  `List Nat`, which is exactly the source's observable behaviour.
-/

/-- Bit pattern of an `i32` (or any wrapped integer) as an unsigned 32-bit
value: the value modulo `2^32`. -/
def toU32 (x : Int) : Nat := (x % 4294967296).toNat

/-- Rust `x as usize` for `x : i32`: sign-extend, reinterpret; equals the
value modulo `2^64`. -/
def usizeOf (x : Int) : Nat := (x % 18446744073709551616).toNat

/-- `src/buffer/buffer.rs` lines 1-7: the cursor record. -/
structure Buffer where
  mark : Int
  position : Int
  limit : Int
  cap : Int
deriving DecidableEq, Repr

/-- `Buffer::remaining` (trait default): `limit - position`. -/
def Buffer.remaining (b : Buffer) : Int := b.limit - b.position

/-- `Buffer::has_remaining` (trait default): `position < limit`. -/
def Buffer.has_remaining (b : Buffer) : Bool := b.position < b.limit

/-- `Buffer::reset` (buffer.rs 58-65): panics "invalid mark!" if `mark < 0`,
else `position := mark`. -/
def Buffer.reset (b : Buffer) : Except String Buffer :=
  if b.mark < 0 then .error "invalid mark!"
  else .ok { b with position := b.mark }

/-- `Buffer::limit_` (buffer.rs 67-79): set the limit, clamping `position`
and dropping `mark` when they exceed the new limit. -/
def Buffer.limit_ (b : Buffer) (limit : Int) : Except String Buffer :=
  if limit > b.cap ∨ limit < 0 then .error "illegal argument!"
  else
    let b1 : Buffer := { b with limit := limit }
    let b2 : Buffer :=
      if b1.position > b1.limit then { b1 with position := b1.limit } else b1
    let b3 : Buffer :=
      if b2.mark > b2.limit then { b2 with mark := -1 } else b2
    .ok b3

/-- `Buffer::position_` (buffer.rs 81-90): set the position, dropping
`mark` when it exceeds the new position. -/
def Buffer.position_ (b : Buffer) (position : Int) : Except String Buffer :=
  if position > b.limit ∨ position < 0 then .error "illegal argument!"
  else
    let b1 : Buffer := { b with position := position }
    let b2 : Buffer :=
      if b1.mark > b1.position then { b1 with mark := -1 } else b1
    .ok b2

/-- `Buffer::mark_` (buffer.rs 92-95): `mark := position`. -/
def Buffer.mark_ (b : Buffer) : Buffer := { b with mark := b.position }

/-- `Buffer::clear` (buffer.rs 97-102). -/
def Buffer.clear (b : Buffer) : Buffer :=
  { b with position := 0, limit := b.cap, mark := -1 }

/-- `Buffer::truncate` (buffer.rs 104-109): zeroes everything, including
`limit` and `cap`. -/
def Buffer.truncate (_ : Buffer) : Buffer :=
  { mark := -1, position := 0, limit := 0, cap := 0 }

/-- `Buffer::flip` (buffer.rs 111-116). -/
def Buffer.flip (b : Buffer) : Buffer :=
  { b with limit := b.position, position := 0, mark := -1 }

/-- `Buffer::rewind` (buffer.rs 118-122). -/
def Buffer.rewind (b : Buffer) : Buffer :=
  { b with position := 0, mark := -1 }

/-- `Buffer::new_` (buffer.rs 167-180): the only checks are `cap < 0` and
`mark > 0 && mark > position`. -/
def Buffer.new_ (mark position limit cap : Int) : Except String Buffer :=
  if cap < 0 then .error "illegal argument"
  else if mark > 0 ∧ mark > position then .error "illegal argument"
  else .ok { mark := mark, position := position, limit := limit, cap := cap }

/-- `Buffer::init` (buffer.rs 160-165): re-runs the `new_` checks, then
`limit_(self.limit)` and `position_(self.position)`; note the argument of
`position_` is the field *after* `limit_` possibly clamped it. -/
def Buffer.init (b : Buffer) : Except String Buffer := do
  let _ ← Buffer.new_ b.mark b.position b.limit b.cap
  let b1 ← b.limit_ b.limit
  let b2 ← b1.position_ b1.position
  .ok b2

/-- `Buffer::next_get_index` (buffer.rs 186-193): panics "buffer under
flow!" when `position >= limit`; else returns the old position and
increments. -/
def Buffer.next_get_index (b : Buffer) : Except String (Int × Buffer) :=
  if b.position ≥ b.limit then .error "buffer under flow!"
  else .ok (b.position, { b with position := b.position + 1 })

/-- `Buffer::next_get_index_nb` (buffer.rs 195-202). -/
def Buffer.next_get_index_nb (b : Buffer) (nb : Int) :
    Except String (Int × Buffer) :=
  if b.limit - b.position < nb then .error "buffer under flow!"
  else .ok (b.position, { b with position := b.position + nb })

/-- `Buffer::next_put_index` (buffer.rs 204-211). -/
def Buffer.next_put_index (b : Buffer) : Except String (Int × Buffer) :=
  if b.position ≥ b.limit then .error "buffer over flow!"
  else .ok (b.position, { b with position := b.position + 1 })

/-- `Buffer::next_put_index_nb` (buffer.rs 213-220). -/
def Buffer.next_put_index_nb (b : Buffer) (nb : Int) :
    Except String (Int × Buffer) :=
  if b.limit - b.position < nb then .error "buffer over flow!"
  else .ok (b.position, { b with position := b.position + nb })

/-- `Buffer::check_index` (buffer.rs 222-227). -/
def Buffer.check_index (b : Buffer) (i : Int) : Except String Int :=
  if i < 0 ∨ i ≥ b.limit then .error "index out of bound" else .ok i

/-- `Buffer::check_index_nb` (buffer.rs 229-234): note the source condition
is `nb >= self.limit - i`, which also rejects the exact-fit case
`i + nb = limit`. -/
def Buffer.check_index_nb (b : Buffer) (i nb : Int) : Except String Int :=
  if i < 0 ∨ nb ≥ b.limit - i then .error "index out of bound" else .ok i

/-- `Buffer::check_bounds` (buffer.rs 236-240):
`if (off | len | (off + len) | (size - (off + len))) < 0 panic`, on `i32`
with two's-complement wraparound.  An `i32` is negative exactly when its
unsigned bit pattern is `≥ 2^31`, and wraparound does not change the value
modulo `2^32`, so the test is expressed on the `u32` bit patterns. -/
def Buffer.check_bounds (off len size : Int) : Except String Unit :=
  if 2147483648 ≤
      (toU32 off ||| toU32 len ||| toU32 (off + len) |||
        toU32 (size - (off + len))) then
    .error "index out of bounds!"
  else .ok ()

/-- `src/buffer/bytebuffer.rs` lines 3-7. -/
structure ByteBuffer where
  buffer : Buffer
  read_only : Bool
deriving DecidableEq, Repr

/-- `ByteBuffer::new_` (bytebuffer.rs 23-30): `Buffer::new_` then `init`. -/
def ByteBuffer.new_ (mark pos limit cap : Int) : Except String ByteBuffer := do
  let b ← Buffer.new_ mark pos limit cap
  let b ← b.init
  .ok { buffer := b, read_only := false }

/-- `ByteBuffer::flip` delegates to `Buffer::flip`. -/
def ByteBuffer.flip (b : ByteBuffer) : ByteBuffer :=
  { b with buffer := b.buffer.flip }

/-- `ByteBuffer::clear` delegates to `Buffer::clear`. -/
def ByteBuffer.clear (b : ByteBuffer) : ByteBuffer :=
  { b with buffer := b.buffer.clear }

/-- `ByteBuffer::truncate` delegates to `Buffer::truncate`. -/
def ByteBuffer.truncate (b : ByteBuffer) : ByteBuffer :=
  { b with buffer := b.buffer.truncate }

/-- `src/buffer/clone_bytebuffer.rs` lines 4-10.  The `RefCell<Vec<u8>>`
is held by value (no `Rc`), so each `CloneByteBuffer` owns its store. -/
structure CloneByteBuffer where
  buffer : ByteBuffer
  hb : List Nat
  offset : Int
deriving DecidableEq, Repr

/-- View-local accessor `position()` (delegates through `ByteBuffer`). -/
def CloneByteBuffer.position (s : CloneByteBuffer) : Int :=
  s.buffer.buffer.position

/-- View-local accessor `limit()`. -/
def CloneByteBuffer.limit (s : CloneByteBuffer) : Int :=
  s.buffer.buffer.limit

/-- View-local accessor `cap()`. -/
def CloneByteBuffer.cap (s : CloneByteBuffer) : Int :=
  s.buffer.buffer.cap

/-- View-local accessor `mark()`. -/
def CloneByteBuffer.mark (s : CloneByteBuffer) : Int :=
  s.buffer.buffer.mark

/-- `remaining()` (trait default over the delegated accessors). -/
def CloneByteBuffer.remaining (s : CloneByteBuffer) : Int :=
  s.limit - s.position

/-- `CloneByteBuffer::position_` delegates to `Buffer::position_`. -/
def CloneByteBuffer.position_ (s : CloneByteBuffer) (p : Int) :
    Except String CloneByteBuffer := do
  let b ← s.buffer.buffer.position_ p
  .ok { s with buffer := { s.buffer with buffer := b } }

/-- `CloneByteBuffer::flip` delegates to `Buffer::flip`. -/
def CloneByteBuffer.flip (s : CloneByteBuffer) : CloneByteBuffer :=
  { s with buffer := s.buffer.flip }

/-- `CloneByteBuffer::clear` delegates to `Buffer::clear`. -/
def CloneByteBuffer.clear (s : CloneByteBuffer) : CloneByteBuffer :=
  { s with buffer := s.buffer.clear }

/-- `CloneByteBuffer::truncate` (clone_bytebuffer.rs 54-56): calls
`self.buffer.clear()`, not `Buffer::truncate`. -/
def CloneByteBuffer.truncate (s : CloneByteBuffer) : CloneByteBuffer :=
  { s with buffer := s.buffer.clear }

/-- `CloneByteBuffer::new2` (clone_bytebuffer.rs 88-99): fresh zero-filled
store of `cap` bytes. -/
def CloneByteBuffer.new2 (cap limit : Int) : Except String CloneByteBuffer := do
  let bb ← ByteBuffer.new_ (-1) 0 limit cap
  .ok { buffer := bb, hb := List.replicate cap.toNat 0, offset := 0 }

/-- `CloneByteBuffer::slice` (clone_bytebuffer.rs 118-125): fresh cursor
`(-1, 0, remaining, remaining)`, `offset := position + offset`, and
`hb := self.hb.clone()` — `RefCell::<Vec<u8>>::clone` deep-copies the
vector, so the new view gets its own copy of the bytes. -/
def CloneByteBuffer.slice (s : CloneByteBuffer) : Except String CloneByteBuffer := do
  let bb ← ByteBuffer.new_ (-1) 0 s.buffer.buffer.remaining s.buffer.buffer.remaining
  .ok { buffer := bb, hb := s.hb,
        offset := s.buffer.buffer.position + s.offset }

/-- `CloneByteBuffer::ix` (clone_bytebuffer.rs 135-137): `i + offset`. -/
def CloneByteBuffer.ix (s : CloneByteBuffer) (i : Int) : Int := i + s.offset

/-- `CloneByteBuffer::get_idx_` (clone_bytebuffer.rs 149-153):
`hb[self.ix(i) as usize]`; a Rust `Vec` index out of range panics. -/
def CloneByteBuffer.get_idx_ (s : CloneByteBuffer) (i : Int) :
    Except String Nat :=
  match s.hb.get? (usizeOf (s.ix i)) with
  | some v => .ok v
  | none => .error "index out of bounds"

/-- `CloneByteBuffer::get` (clone_bytebuffer.rs 139-142):
`next_get_index` then `get_idx_`. -/
def CloneByteBuffer.get (s : CloneByteBuffer) :
    Except String (Nat × CloneByteBuffer) := do
  let (idx, b) ← s.buffer.buffer.next_get_index
  let s1 : CloneByteBuffer := { s with buffer := { s.buffer with buffer := b } }
  let v ← s1.get_idx_ idx
  .ok (v, s1)

/-- `CloneByteBuffer::get_i` (clone_bytebuffer.rs 144-147):
`check_index` then `get_idx_`; the cursor is not moved. -/
def CloneByteBuffer.get_i (s : CloneByteBuffer) (i : Int) :
    Except String Nat := do
  let idx ← s.buffer.buffer.check_index i
  s.get_idx_ idx

/-- `CloneByteBuffer::put_idx_` (clone_bytebuffer.rs 165-169):
`hb[self.ix(idx) as usize] = x`. -/
def CloneByteBuffer.put_idx_ (s : CloneByteBuffer) (x : Nat) (idx : Int) :
    Except String CloneByteBuffer :=
  let n := usizeOf (s.ix idx)
  if n < s.hb.length then .ok { s with hb := s.hb.set n x }
  else .error "index out of bounds"

/-- `CloneByteBuffer::put_i` (clone_bytebuffer.rs 160-163). -/
def CloneByteBuffer.put_i (s : CloneByteBuffer) (x : Nat) (i : Int) :
    Except String CloneByteBuffer := do
  let idx ← s.buffer.buffer.check_index i
  s.put_idx_ x idx

/-- `CloneByteBuffer::put` (clone_bytebuffer.rs 155-158):
`next_put_index` first (it advances the cursor), then `put_i` on the
already-advanced state. -/
def CloneByteBuffer.put (s : CloneByteBuffer) (x : Nat) :
    Except String CloneByteBuffer := do
  let (idx, b) ← s.buffer.buffer.next_put_index
  let s1 : CloneByteBuffer := { s with buffer := { s.buffer with buffer := b } }
  s1.put_i x idx

/-- The element-wise copy loop shared by `get_buf`, `put_buf` and
`put_buffer` (`for i in offset..offset+length` with a running `idx`):
reads `src[srcStart + idx]` and writes `dst[dstOff + idx]` for
`idx = 0, …, n-1`; an out-of-range `Vec` index panics. -/
def arraycopy (src : List Nat) (srcStart : Nat) (dst : List Nat)
    (dstStart : Nat) : Nat → Except String (List Nat)
  | 0 => .ok dst
  | n + 1 =>
    match src.get? srcStart with
    | some v =>
      if dstStart < dst.length then
        arraycopy src (srcStart + 1) (dst.set dstStart v) (dstStart + 1) n
      else .error "index out of bounds"
    | none => .error "index out of bounds"

/-- `CloneByteBuffer::get_buf` (clone_bytebuffer.rs 180-196):
`check_bounds(offset, length, dst.len())`, then the remaining check, then
the copy loop, then `position_(position + length)`. -/
def CloneByteBuffer.get_buf (s : CloneByteBuffer) (dst : List Nat)
    (offset length : Int) : Except String (CloneByteBuffer × List Nat) := do
  let _ ← Buffer.check_bounds offset length (dst.length : Int)
  if length > s.remaining then .error "buffer under flow"
  else do
    let srcStart := usizeOf (s.ix s.position)
    let dst1 ← arraycopy s.hb srcStart dst (usizeOf offset) length.toNat
    let s1 ← s.position_ (s.position + length)
    .ok (s1, dst1)

/-- `CloneByteBuffer::put_buf` (clone_bytebuffer.rs 201-217): like
`get_buf` with source and destination exchanged; the insufficient-room
panic reuses the message "buffer under flow". -/
def CloneByteBuffer.put_buf (s : CloneByteBuffer) (src : List Nat)
    (offset length : Int) : Except String (CloneByteBuffer × List Nat) := do
  let _ ← Buffer.check_bounds offset length (src.length : Int)
  if length > s.remaining then .error "buffer under flow"
  else do
    let dstStart := usizeOf (s.ix s.position)
    let hb1 ← arraycopy src (usizeOf offset) s.hb dstStart length.toNat
    let s1 : CloneByteBuffer := { s with hb := hb1 }
    let s2 ← s1.position_ (s1.position + length)
    .ok (s2, src)

/-- `CloneByteBuffer::put_buffer` (clone_bytebuffer.rs 224-249):
`n := other.remaining() as usize`; overflow check against
`self.remaining() as usize`; copy loop from `other`'s store into `self`'s
store (they are distinct vectors); then both positions advance by `n`.
The source positions (`src_start`, `dst_start`) are read before any
mutation, and the two stores are distinct `Vec`s. -/
def CloneByteBuffer.put_buffer (s other : CloneByteBuffer) :
    Except String (CloneByteBuffer × CloneByteBuffer) := do
  let n := usizeOf other.remaining
  if n > usizeOf s.remaining then .error "buffer overflow"
  else do
    let srcStart := usizeOf (other.ix other.position)
    let dstStart := usizeOf (s.ix s.position)
    let hb1 ← arraycopy other.hb srcStart s.hb dstStart n
    let s1 : CloneByteBuffer := { s with hb := hb1 }
    let other1 ← other.position_ (other.position + (n : Int))
    let s2 ← s1.position_ (s1.position + (n : Int))
    .ok (s2, other1)

/-- The cursor invariant of spec §3: `0 ≤ mark_or_neg1 ≤ position ≤ limit
≤ capacity`, with `mark = -1` meaning "unset". -/
def Buffer.valid (b : Buffer) : Prop :=
  (b.mark = -1 ∨ (0 ≤ b.mark ∧ b.mark ≤ b.position)) ∧
    0 ≤ b.position ∧ b.position ≤ b.limit ∧ b.limit ≤ b.cap

instance (b : Buffer) : Decidable b.valid := by
  unfold Buffer.valid; infer_instance

/-- Well-formedness of a view: valid cursor, non-negative offset, window
inside the store, store of `i32`-representable length. -/
def CloneByteBuffer.WF (s : CloneByteBuffer) : Prop :=
  s.buffer.buffer.valid ∧ 0 ≤ s.offset ∧
    s.offset + s.buffer.buffer.cap ≤ (s.hb.length : Int) ∧
    (s.hb.length : Int) < 2147483648

instance (s : CloneByteBuffer) : Decidable s.WF := by
  unfold CloneByteBuffer.WF; infer_instance

/-! Helper lemmas on the u32 bit-pattern arithmetic. -/

theorem toU32_lt (x : Int) : toU32 x < 4294967296 := by
  unfold toU32
  have h1 : 0 ≤ x % 4294967296 := Int.emod_nonneg x (by norm_num)
  have h2 : x % 4294967296 < 4294967296 := Int.emod_lt_of_pos x (by norm_num)
  omega

theorem sign31_iff {x : Nat} (hx : x < 4294967296) :
    2147483648 ≤ x ↔ Nat.testBit x 31 = true := by
  rw [Nat.testBit_to_div_mod]
  have h : (2 : Nat) ^ 31 = 2147483648 := by norm_num
  rw [h]
  simp only [decide_eq_true_eq]
  omega

theorem or_sign31 {a b : Nat} (ha : a < 4294967296) (hb : b < 4294967296) :
    2147483648 ≤ (a ||| b) ↔ 2147483648 ≤ a ∨ 2147483648 ≤ b := by
  have h32 : (4294967296 : Nat) = 2 ^ 32 := by norm_num
  have hab : a ||| b < 4294967296 := by
    rw [h32] at ha hb ⊢
    exact Nat.or_lt_two_pow ha hb
  rw [sign31_iff hab, sign31_iff ha, sign31_iff hb, Nat.testBit_lor]
  simp

theorem sign_toU32 (x : Int) :
    2147483648 ≤ toU32 x ↔ 2147483648 ≤ x % 4294967296 := by
  unfold toU32
  have h1 : 0 ≤ x % 4294967296 := Int.emod_nonneg x (by norm_num)
  omega

/-- Reduce the `check_bounds` result to the negation of its condition. -/
theorem check_bounds_ok_iff (off len size : Int) :
    Buffer.check_bounds off len size = .ok () ↔
      ¬ 2147483648 ≤
        (toU32 off ||| toU32 len ||| toU32 (off + len) |||
          toU32 (size - (off + len))) := by
  unfold Buffer.check_bounds
  split <;> simp_all

/-- C10: `CloneByteBuffer::truncate` is `clear` — it resets `position` to 0,
`limit` to `cap`, `mark` to `-1`, and leaves `cap` and the backing bytes
unchanged — while the plain `Buffer::truncate` zeroes `limit` and `cap`. -/
theorem C10_truncate_eq_clear (s : CloneByteBuffer) :
    s.truncate = s.clear ∧
      s.truncate.position = 0 ∧
      s.truncate.limit = s.cap ∧
      s.truncate.mark = -1 ∧
      s.truncate.cap = s.cap ∧
      s.truncate.hb = s.hb ∧
      (∀ b : Buffer, b.truncate.limit = 0 ∧ b.truncate.cap = 0) :=
  ⟨rfl, rfl, rfl, rfl, rfl, rfl, fun _ => ⟨rfl, rfl⟩⟩

/-- C3 (code bug): the construction that the spec requires to fail fast is
accepted.  `Buffer::new_ (-1, 5, 3, 10)` has `position > limit` yet returns
the tuple unchanged, and `ByteBuffer::new_ (-1, 5, 3, 10)` silently clamps
`position` to 3 (through `init`, which re-reads the field already clamped
by `limit_`) instead of panicking. -/
theorem C3_constructors_accept_invalid :
    Buffer.new_ (-1) 5 3 10 = .ok ⟨-1, 5, 3, 10⟩ ∧
      ByteBuffer.new_ (-1) 5 3 10 = .ok ⟨⟨-1, 3, 3, 10⟩, false⟩ ∧
      ¬ Buffer.valid ⟨-1, 5, 3, 10⟩ := by
  refine ⟨rfl, rfl, by decide⟩

/-- C6 (code bug): the bulk positional check rejects the exact-fit case.
With `limit = 5`, `i = 3`, `length = 2` the intended contract
`i + length ≤ limit` holds, yet `check_index_nb` panics because the source
condition is `nb >= limit - i` instead of `nb > limit - i`. -/
theorem C6_check_index_nb_rejects_exact_fit :
    Buffer.check_index_nb ⟨-1, 0, 5, 10⟩ 3 2 = .error "index out of bound" ∧
      (0 : Int) ≤ 3 ∧ (3 : Int) + 2 ≤ 5 ∧
      Buffer.check_index_nb ⟨-1, 0, 5, 10⟩ 3 1 = .ok 3 :=
  ⟨rfl, by decide, by decide, rfl⟩

/-- The scenario of the repository test `test_buffer_slice`, run through
the embedded source operations: a fresh capacity-10 view receives bytes
0..4, is sliced, and the bytes 10 and 11 are written through the slice;
afterwards both stores and the parent's read at index `p + 0 = 5` are
reported together with the slice's read at index 0. -/
def c1Scenario : Except String (List Nat × List Nat × Nat × Nat) := do
  let b0 ← CloneByteBuffer.new2 10 10
  let b1 ← b0.put 0
  let b2 ← b1.put 1
  let b3 ← b2.put 2
  let b4 ← b3.put 3
  let b5 ← b4.put 4
  let sl ← b5.slice
  let sl1 ← sl.put 10
  let sl2 ← sl1.put 11
  let parentByte ← b5.get_i 5
  let sliceByte ← sl2.get_i 0
  .ok (b5.hb, sl2.hb, parentByte, sliceByte)

/-- C1 (code bug): `slice()` deep-copies the backing store
(`RefCell::<Vec<u8>>::clone` clones the vector), so a write through the
slice at index 0 is *not* observed by the parent at index `p = 5`: the
slice reads back 10 but the parent still reads 0, and the parent's store
is unchanged.  This matches the repository test `test_buffer_slice` and
the source's own `todo` comment (clone_bytebuffer.rs 116-117) saying the
behaviour is not the intended sharing. -/
theorem C1_slice_copies_store :
    c1Scenario =
      .ok ([0, 1, 2, 3, 4, 0, 0, 0, 0, 0],
        [0, 1, 2, 3, 4, 10, 11, 0, 0, 0], 0, 10) := rfl

/-- C5 counterexample: at `(off, len, size) = (0, 1, -2^31)` the source
check succeeds — `size - (off + len)` underflows `i32` and wraps to
`2^31 - 1 ≥ 0` — although `off + len ≤ size` is false, so the claimed
exact characterisation fails. -/
theorem C5_counterexample :
    Buffer.check_bounds 0 1 (-2147483648) = .ok () ∧
      ¬ ((0 : Int) ≤ 0 ∧ (0 : Int) ≤ 1 ∧ (0 : Int) + 1 ≤ -2147483648) := by
  refine ⟨rfl, by decide⟩

/-- C5 (amended): for `i32` inputs with a non-negative `size`,
`check_bounds(off, len, size)` succeeds exactly when `off ≥ 0`, `len ≥ 0`
and `off + len ≤ size`; the arithmetic is overflow-safe there (the
`off + len ≥ 2^31` overflow wraps to a negative `i32` and is rejected).
Only for negative `size` can the `size - (off + len)` underflow make the
check succeed spuriously (see the counterexample). -/
theorem check_bounds_characterization (off len size : Int)
    (h1 : -2147483648 ≤ off) (h2 : off < 2147483648)
    (h3 : -2147483648 ≤ len) (h4 : len < 2147483648)
    (h5 : 0 ≤ size) (h6 : size < 2147483648) :
    Buffer.check_bounds off len size = .ok () ↔
      0 ≤ off ∧ 0 ≤ len ∧ off + len ≤ size := by
  rw [check_bounds_ok_iff]
  have h32 : (4294967296 : Nat) = 2 ^ 32 := by norm_num
  have ha := toU32_lt off
  have hb := toU32_lt len
  have hc := toU32_lt (off + len)
  have hd := toU32_lt (size - (off + len))
  have hab : toU32 off ||| toU32 len < 4294967296 := by
    rw [h32] at ha hb ⊢
    exact Nat.or_lt_two_pow ha hb
  have habc : (toU32 off ||| toU32 len) ||| toU32 (off + len) < 4294967296 := by
    rw [h32] at hab hc ⊢
    exact Nat.or_lt_two_pow hab hc
  rw [or_sign31 habc hd, or_sign31 hab hc, or_sign31 ha hb,
    sign_toU32, sign_toU32, sign_toU32, sign_toU32]
  omega

/-- C5 (amended, claim theorem): identical statement to
`check_bounds_characterization`. -/
theorem C5_check_bounds_correct (off len size : Int)
    (h1 : -2147483648 ≤ off) (h2 : off < 2147483648)
    (h3 : -2147483648 ≤ len) (h4 : len < 2147483648)
    (h5 : 0 ≤ size) (h6 : size < 2147483648) :
    Buffer.check_bounds off len size = .ok () ↔
      0 ≤ off ∧ 0 ≤ len ∧ off + len ≤ size :=
  check_bounds_characterization off len size h1 h2 h3 h4 h5 h6

/-- Witness for `C5_check_bounds_correct` at `(off, len, size) = (1, 2, 5)`. -/
theorem C5_check_bounds_correct_witness :
    (Buffer.check_bounds 1 2 5 = .ok () ↔
      (0 : Int) ≤ 1 ∧ (0 : Int) ≤ 2 ∧ (1 : Int) + 2 ≤ 5) :=
  C5_check_bounds_correct 1 2 5 (by decide) (by decide) (by decide)
    (by decide) (by decide) (by decide)

/-- C8: a bulk transfer (`get_buf` or `put_buf`) asked for more bytes than
`remaining()` fails; in the source both checks precede the copy loop, so
the failure (modelled as `Except.error`) happens before any byte of the
destination, source or cursor is touched. -/
theorem C8_bulk_transfer_rejects (s : CloneByteBuffer) (dst src : List Nat)
    (off1 len1 off2 len2 : Int)
    (hg : len1 > s.remaining) (hp : len2 > s.remaining) :
    (∃ e, s.get_buf dst off1 len1 = .error e) ∧
      (∃ e, s.put_buf src off2 len2 = .error e) := by
  constructor
  · unfold CloneByteBuffer.get_buf
    cases hcb : Buffer.check_bounds off1 len1 (dst.length : Int) with
    | error e => exact ⟨e, rfl⟩
    | ok u =>
      cases u
      refine ⟨"buffer under flow", ?_⟩
      show (if len1 > s.remaining
        then (Except.error "buffer under flow" :
          Except String (CloneByteBuffer × List Nat)) else _) = _
      rw [if_pos hg]
  · unfold CloneByteBuffer.put_buf
    cases hcb : Buffer.check_bounds off2 len2 (src.length : Int) with
    | error e => exact ⟨e, rfl⟩
    | ok u =>
      cases u
      refine ⟨"buffer under flow", ?_⟩
      show (if len2 > s.remaining
        then (Except.error "buffer under flow" :
          Except String (CloneByteBuffer × List Nat)) else _) = _
      rw [if_pos hp]

/-- Witness for `C8_bulk_transfer_rejects`: a view with 2 remaining bytes
rejects 5-byte transfers in both directions. -/
theorem C8_bulk_transfer_rejects_witness :
    (∃ e, CloneByteBuffer.get_buf
        ⟨⟨⟨-1, 0, 2, 2⟩, false⟩, [7, 7], 0⟩ [0, 0, 0, 0, 0] 0 5 = .error e) ∧
      (∃ e, CloneByteBuffer.put_buf
        ⟨⟨⟨-1, 0, 2, 2⟩, false⟩, [7, 7], 0⟩ [0, 0, 0, 0, 0] 0 5 = .error e) :=
  C8_bulk_transfer_rejects ⟨⟨⟨-1, 0, 2, 2⟩, false⟩, [7, 7], 0⟩
    [0, 0, 0, 0, 0] [0, 0, 0, 0, 0] 0 5 0 5 (by decide) (by decide)

/-! Plumbing lemmas: `Except` bind reduction and success shapes of the
primitive operations. -/

theorem exc_bind_ok {α β : Type} (a : α) (f : α → Except String β) :
    (Except.ok a >>= f) = f a := rfl

theorem exc_bind_error {α β : Type} (e : String) (f : α → Except String β) :
    ((Except.error e : Except String α) >>= f) = Except.error e := rfl

theorem usizeOf_eq_toNat {x : Int} (h1 : 0 ≤ x)
    (h2 : x < 18446744073709551616) : usizeOf x = x.toNat := by
  unfold usizeOf
  omega

theorem position__ok {b : Buffer} {p : Int} (h1 : 0 ≤ p) (h2 : p ≤ b.limit)
    (h3 : b.mark ≤ p) : b.position_ p = .ok { b with position := p } := by
  unfold Buffer.position_
  rw [if_neg (by omega)]
  show Except.ok (if b.mark > p then { b with position := p, mark := -1 }
    else { b with position := p }) = _
  rw [if_neg (by omega)]

theorem next_put_index_ok {b : Buffer} (h : b.position < b.limit) :
    b.next_put_index = .ok (b.position, { b with position := b.position + 1 }) := by
  unfold Buffer.next_put_index
  rw [if_neg (by omega)]

theorem next_get_index_ok {b : Buffer} (h : b.position < b.limit) :
    b.next_get_index = .ok (b.position, { b with position := b.position + 1 }) := by
  unfold Buffer.next_get_index
  rw [if_neg (by omega)]

theorem check_index_ok {b : Buffer} {i : Int} (h1 : 0 ≤ i) (h2 : i < b.limit) :
    b.check_index i = .ok i := by
  unfold Buffer.check_index
  rw [if_neg (by omega)]

theorem get_idx__ok {s : CloneByteBuffer} {i : Int} {v : Nat}
    (h : s.hb.get? (usizeOf (s.ix i)) = some v) : s.get_idx_ i = .ok v := by
  unfold CloneByteBuffer.get_idx_
  rw [h]

theorem put_idx__ok {s : CloneByteBuffer} {x : Nat} {i : Int}
    (h : usizeOf (s.ix i) < s.hb.length) :
    s.put_idx_ x i = .ok { s with hb := s.hb.set (usizeOf (s.ix i)) x } := by
  unfold CloneByteBuffer.put_idx_
  rw [if_pos h]

/-- Specification of the copy loop: with both ranges inside their lists it
succeeds, the window `[dstStart, dstStart+n)` of the result holds the
window `[srcStart, srcStart+n)` of the source, and everything else is
unchanged. -/
theorem arraycopy_spec (n : Nat) :
    ∀ (src dst : List Nat) (srcStart dstStart : Nat),
      srcStart + n ≤ src.length → dstStart + n ≤ dst.length →
      ∃ out, arraycopy src srcStart dst dstStart n = .ok out ∧
        out.length = dst.length ∧
        (∀ k, k < n → out.get? (dstStart + k) = src.get? (srcStart + k)) ∧
        (∀ j, j < dstStart ∨ dstStart + n ≤ j → out.get? j = dst.get? j) := by
  induction n with
  | zero =>
    intro src dst srcStart dstStart _ _
    exact ⟨dst, rfl, rfl, fun k hk => absurd hk (by omega), fun _ _ => rfl⟩
  | succ m ih =>
    intro src dst srcStart dstStart hs hd
    have hsrc : srcStart < src.length := by omega
    obtain ⟨v, hv⟩ : ∃ v, src.get? srcStart = some v := by
      cases h : src.get? srcStart with
      | none => exact absurd (List.get?_eq_none.mp h) (by omega)
      | some v => exact ⟨v, rfl⟩
    have hdst : dstStart < dst.length := by omega
    obtain ⟨out, hout, hlen, hcopy, hkeep⟩ :=
      ih src (dst.set dstStart v) (srcStart + 1) (dstStart + 1)
        (by omega) (by rw [List.length_set]; omega)
    refine ⟨out, ?_, ?_, ?_, ?_⟩
    · show arraycopy src srcStart dst dstStart (m + 1) = .ok out
      unfold arraycopy
      rw [hv]
      simp only []
      rw [if_pos hdst]
      exact hout
    · rw [hlen, List.length_set]
    · intro k hk
      cases k with
      | zero =>
        have h1 : out.get? (dstStart + 0) = (dst.set dstStart v).get? dstStart := by
          have := hkeep dstStart (Or.inl (by omega))
          simpa using this
        have hz : srcStart + 0 = srcStart := rfl
        rw [h1, List.get?_set_eq_of_lt v hdst, hz, hv]
      | succ k1 =>
        have h1 : dstStart + (k1 + 1) = (dstStart + 1) + k1 := by omega
        have h2 : srcStart + (k1 + 1) = (srcStart + 1) + k1 := by omega
        rw [h1, h2]
        exact hcopy k1 (by omega)
    · intro j hj
      have h1 : out.get? j = (dst.set dstStart v).get? j := by
        apply hkeep
        omega
      rw [h1, List.get?_set_ne v dst (by omega)]

/-- The view with only its cursor position replaced. -/
def CloneByteBuffer.withPosition (s : CloneByteBuffer) (p : Int) :
    CloneByteBuffer :=
  { s with buffer := { s.buffer with
      buffer := { s.buffer.buffer with position := p } } }

/-- The view with only its byte store replaced. -/
def CloneByteBuffer.withStore (s : CloneByteBuffer) (l : List Nat) :
    CloneByteBuffer :=
  { s with hb := l }

theorem cbb_position__ok {s : CloneByteBuffer} {p : Int} (h1 : 0 ≤ p)
    (h2 : p ≤ s.limit) (h3 : s.mark ≤ p) :
    s.position_ p = .ok (s.withPosition p) := by
  unfold CloneByteBuffer.position_ CloneByteBuffer.withPosition
  rw [position__ok h1 h2 h3]
  rfl

/-- C7: with a well-formed view, in-range destination window and
`len ≤ remaining`, `get_buf` copies the `len` bytes at backing indices
`offset + position + k` into `dst[off + k]` in order, advances `position`
by `len`, and changes nothing else; with `len > remaining` it fails with
"buffer under flow". -/
theorem C7_get_buf_correct (s : CloneByteBuffer) (dst : List Nat)
    (off len : Int) (hwf : s.WF) (hoff : 0 ≤ off) (hlen : 0 ≤ len)
    (hbound : off + len ≤ (dst.length : Int))
    (hdl : (dst.length : Int) < 2147483648) :
    (len ≤ s.remaining →
      ∃ s1 dst1, s.get_buf dst off len = .ok (s1, dst1) ∧
        s1.position = s.position + len ∧ s1.limit = s.limit ∧
        s1.cap = s.cap ∧ s1.mark = s.mark ∧ s1.offset = s.offset ∧
        s1.hb = s.hb ∧ dst1.length = dst.length ∧
        (∀ k, k < len.toNat →
          dst1.get? (off.toNat + k) =
            s.hb.get? ((s.offset + s.position).toNat + k)) ∧
        (∀ j, j < off.toNat ∨ off.toNat + len.toNat ≤ j →
          dst1.get? j = dst.get? j)) ∧
    (len > s.remaining → s.get_buf dst off len = .error "buffer under flow") := by
  obtain ⟨⟨hmark, hpos0, hposlim, hlimcap⟩, hoffset, hstore, hsmall⟩ := hwf
  have hP : s.position = s.buffer.buffer.position := rfl
  have hL : s.limit = s.buffer.buffer.limit := rfl
  have hC : s.cap = s.buffer.buffer.cap := rfl
  have hM : s.mark = s.buffer.buffer.mark := rfl
  have hR : s.remaining = s.limit - s.position := rfl
  have hcb : Buffer.check_bounds off len (dst.length : Int) = .ok () := by
    refine (check_bounds_characterization off len (dst.length : Int)
      (by omega) (by omega) (by omega) (by omega) (by omega) ?_).mpr
      ⟨hoff, hlen, hbound⟩
    exact hdl
  constructor
  · intro hrem
    have hix : usizeOf (s.ix s.position) = (s.offset + s.position).toNat := by
      unfold CloneByteBuffer.ix usizeOf
      have hc : s.position + s.offset = s.offset + s.position := by ring
      rw [hc]
      omega
    have husz : usizeOf off = off.toNat := usizeOf_eq_toNat hoff (by omega)
    have hsb : (s.offset + s.position).toNat + len.toNat ≤ s.hb.length := by
      omega
    have hdb : off.toNat + len.toNat ≤ dst.length := by omega
    obtain ⟨out, hout, holen, hocopy, hokeep⟩ :=
      arraycopy_spec len.toNat s.hb dst ((s.offset + s.position).toNat)
        off.toNat hsb hdb
    have hpp : s.position_ (s.position + len) =
        .ok (s.withPosition (s.position + len)) := by
      apply cbb_position__ok (by omega) (by omega)
      rcases hmark with h | h <;> omega
    have heq : s.get_buf dst off len =
        .ok (s.withPosition (s.position + len), out) := by
      unfold CloneByteBuffer.get_buf
      rw [hcb]
      simp only [exc_bind_ok]
      rw [if_neg (by omega : ¬ len > s.remaining)]
      simp only [hix, husz]
      rw [hout]
      simp only [exc_bind_ok]
      rw [hpp]
      rfl
    exact ⟨_, out, heq, rfl, rfl, rfl, rfl, rfl, rfl, holen, hocopy, hokeep⟩
  · intro hgt
    unfold CloneByteBuffer.get_buf
    rw [hcb]
    simp only [exc_bind_ok]
    rw [if_pos hgt]

/-- Concrete view for the `C7_get_buf_correct` witness: position 1,
limit 3, store `[5, 6, 7]`. -/
def c7s : CloneByteBuffer := ⟨⟨⟨-1, 1, 3, 3⟩, false⟩, [5, 6, 7], 0⟩

/-- Witness for `C7_get_buf_correct` at `dst = [0,0,0,0]`, `off = 1`,
`len = 2`. -/
theorem C7_get_buf_correct_witness :
    ((2 : Int) ≤ c7s.remaining →
      ∃ s1 dst1, c7s.get_buf [0, 0, 0, 0] 1 2 = .ok (s1, dst1) ∧
        s1.position = c7s.position + 2 ∧ s1.limit = c7s.limit ∧
        s1.cap = c7s.cap ∧ s1.mark = c7s.mark ∧ s1.offset = c7s.offset ∧
        s1.hb = c7s.hb ∧ dst1.length = [0, 0, 0, 0].length ∧
        (∀ k, k < (2 : Int).toNat →
          dst1.get? ((1 : Int).toNat + k) =
            c7s.hb.get? ((c7s.offset + c7s.position).toNat + k)) ∧
        (∀ j, j < (1 : Int).toNat ∨ (1 : Int).toNat + (2 : Int).toNat ≤ j →
          dst1.get? j = [0, 0, 0, 0].get? j)) ∧
    ((2 : Int) > c7s.remaining →
      c7s.get_buf [0, 0, 0, 0] 1 2 = .error "buffer under flow") :=
  C7_get_buf_correct c7s [0, 0, 0, 0] 1 2 (by decide) (by decide) (by decide)
    (by decide) (by decide)

/-- C2: `put_buffer` moves exactly `other.remaining()` bytes from
`other`'s current position (through its offset) to `s`'s current position
(through its offset), advances both positions by that length, and fails
with "buffer overflow" when `other.remaining() > self.remaining()`.  The
bytes written are those of `other`'s pre-state store — the source reads
`src_start`/`dst_start` and the whole source span before updating either
cursor, and the two views own distinct byte vectors (`RefCell` held by
value), so overlapping self-copies cannot arise and the copy coincides
with a `memmove`. -/
theorem C2_put_buffer_correct (s other : CloneByteBuffer)
    (hwfs : s.WF) (hwfo : other.WF) :
    (other.remaining ≤ s.remaining →
      ∃ s2 other1, s.put_buffer other = .ok (s2, other1) ∧
        s2.position = s.position + other.remaining ∧
        other1.position = other.position + other.remaining ∧
        s2.limit = s.limit ∧ s2.cap = s.cap ∧ s2.mark = s.mark ∧
        s2.offset = s.offset ∧
        other1.limit = other.limit ∧ other1.cap = other.cap ∧
        other1.mark = other.mark ∧ other1.offset = other.offset ∧
        other1.hb = other.hb ∧
        s2.hb.length = s.hb.length ∧
        (∀ k, k < other.remaining.toNat →
          s2.hb.get? ((s.offset + s.position).toNat + k) =
            other.hb.get? ((other.offset + other.position).toNat + k)) ∧
        (∀ j, j < (s.offset + s.position).toNat ∨
            (s.offset + s.position).toNat + other.remaining.toNat ≤ j →
          s2.hb.get? j = s.hb.get? j)) ∧
    (other.remaining > s.remaining →
      s.put_buffer other = .error "buffer overflow") := by
  obtain ⟨⟨hmarkS, hposS, hplS, hlcS⟩, hoffS, hstoreS, hsmallS⟩ := hwfs
  obtain ⟨⟨hmarkO, hposO, hplO, hlcO⟩, hoffO, hstoreO, hsmallO⟩ := hwfo
  have hPs : s.position = s.buffer.buffer.position := rfl
  have hLs : s.limit = s.buffer.buffer.limit := rfl
  have hCs : s.cap = s.buffer.buffer.cap := rfl
  have hMs : s.mark = s.buffer.buffer.mark := rfl
  have hRs : s.remaining = s.limit - s.position := rfl
  have hPo : other.position = other.buffer.buffer.position := rfl
  have hLo : other.limit = other.buffer.buffer.limit := rfl
  have hCo : other.cap = other.buffer.buffer.cap := rfl
  have hMo : other.mark = other.buffer.buffer.mark := rfl
  have hRo : other.remaining = other.limit - other.position := rfl
  have huszO : usizeOf other.remaining = other.remaining.toNat :=
    usizeOf_eq_toNat (by omega) (by omega)
  have huszS : usizeOf s.remaining = s.remaining.toNat :=
    usizeOf_eq_toNat (by omega) (by omega)
  have hixO : usizeOf (other.ix other.position) =
      (other.offset + other.position).toNat := by
    unfold CloneByteBuffer.ix usizeOf
    have hc : other.position + other.offset = other.offset + other.position := by
      ring
    rw [hc]
    omega
  have hixS : usizeOf (s.ix s.position) = (s.offset + s.position).toNat := by
    unfold CloneByteBuffer.ix usizeOf
    have hc : s.position + s.offset = s.offset + s.position := by ring
    rw [hc]
    omega
  constructor
  · intro hle
    have hsrcb : (other.offset + other.position).toNat + other.remaining.toNat ≤
        other.hb.length := by omega
    have hdstb : (s.offset + s.position).toNat + other.remaining.toNat ≤
        s.hb.length := by omega
    obtain ⟨out, hout, holen, hocopy, hokeep⟩ :=
      arraycopy_spec other.remaining.toNat other.hb s.hb
        ((other.offset + other.position).toNat)
        ((s.offset + s.position).toNat) hsrcb hdstb
    have hppO : other.position_
        (other.position + (other.remaining.toNat : Int)) =
        .ok (other.withPosition
          (other.position + (other.remaining.toNat : Int))) := by
      apply cbb_position__ok (by omega) (by omega)
      rcases hmarkO with h | h <;> omega
    have hs1L : ({ buffer := s.buffer, hb := out, offset := s.offset } :
        CloneByteBuffer).limit = s.limit := rfl
    have hs1P : ({ buffer := s.buffer, hb := out, offset := s.offset } :
        CloneByteBuffer).position = s.position := rfl
    have hs1M : ({ buffer := s.buffer, hb := out, offset := s.offset } :
        CloneByteBuffer).mark = s.mark := rfl
    have hppS : CloneByteBuffer.position_
        { buffer := s.buffer, hb := out, offset := s.offset }
        (({ buffer := s.buffer, hb := out, offset := s.offset } :
          CloneByteBuffer).position + (other.remaining.toNat : Int)) =
        .ok ((s.withStore out).withPosition
          (s.position + (other.remaining.toNat : Int))) := by
      apply cbb_position__ok (by omega) (by omega)
      rcases hmarkS with h | h <;> omega
    have heq : s.put_buffer other =
        .ok ((s.withStore out).withPosition
            (s.position + (other.remaining.toNat : Int)),
          other.withPosition
            (other.position + (other.remaining.toNat : Int))) := by
      unfold CloneByteBuffer.put_buffer
      simp only [huszO, huszS]
      rw [if_neg (by omega : ¬ other.remaining.toNat > s.remaining.toNat)]
      simp only [hixO, hixS]
      rw [hout]
      simp only [exc_bind_ok]
      rw [hppO]
      simp only [exc_bind_ok]
      rw [hppS]
      rfl
    refine ⟨_, _, heq, ?_, ?_, rfl, rfl, rfl, rfl, rfl, rfl, rfl, rfl, rfl,
      ?_, ?_, ?_⟩
    · show s.position + (other.remaining.toNat : Int) =
        s.position + other.remaining
      omega
    · show other.position + (other.remaining.toNat : Int) =
        other.position + other.remaining
      omega
    · exact holen
    · exact hocopy
    · exact hokeep
  · intro hgt
    unfold CloneByteBuffer.put_buffer
    simp only [huszO, huszS]
    rw [if_pos (by omega : other.remaining.toNat > s.remaining.toNat)]

/-- Destination view for the `C2_put_buffer_correct` witness: position 0,
limit 3, store `[0, 0, 0]`. -/
def c2s : CloneByteBuffer := ⟨⟨⟨-1, 0, 3, 3⟩, false⟩, [0, 0, 0], 0⟩

/-- Source view for the `C2_put_buffer_correct` witness: position 1,
limit 3, store `[8, 9, 10]`. -/
def c2o : CloneByteBuffer := ⟨⟨⟨-1, 1, 3, 3⟩, false⟩, [8, 9, 10], 0⟩

/-- Witness for `C2_put_buffer_correct` at the concrete pair above. -/
theorem C2_put_buffer_correct_witness :
    (c2o.remaining ≤ c2s.remaining →
      ∃ s2 other1, c2s.put_buffer c2o = .ok (s2, other1) ∧
        s2.position = c2s.position + c2o.remaining ∧
        other1.position = c2o.position + c2o.remaining ∧
        s2.limit = c2s.limit ∧ s2.cap = c2s.cap ∧ s2.mark = c2s.mark ∧
        s2.offset = c2s.offset ∧
        other1.limit = c2o.limit ∧ other1.cap = c2o.cap ∧
        other1.mark = c2o.mark ∧ other1.offset = c2o.offset ∧
        other1.hb = c2o.hb ∧
        s2.hb.length = c2s.hb.length ∧
        (∀ k, k < c2o.remaining.toNat →
          s2.hb.get? ((c2s.offset + c2s.position).toNat + k) =
            c2o.hb.get? ((c2o.offset + c2o.position).toNat + k)) ∧
        (∀ j, j < (c2s.offset + c2s.position).toNat ∨
            (c2s.offset + c2s.position).toNat + c2o.remaining.toNat ≤ j →
          s2.hb.get? j = c2s.hb.get? j)) ∧
    (c2o.remaining > c2s.remaining →
      c2s.put_buffer c2o = .error "buffer overflow") :=
  C2_put_buffer_correct c2s c2o (by decide) (by decide)

/-- The cursor operations of spec §4.1 (`mark()`, `reset()`, `limit(n)`,
`position(n)`, `clear()`, `flip()`, `rewind()`). -/
inductive CursorOp where
  | opMark : CursorOp
  | opReset : CursorOp
  | opLimit : Int → CursorOp
  | opPosition : Int → CursorOp
  | opClear : CursorOp
  | opFlip : CursorOp
  | opRewind : CursorOp

/-- One cursor operation applied to a cursor, dispatching to the source
operations of `impl IBuffer for Buffer`. -/
def stepOp : CursorOp → Buffer → Except String Buffer
  | .opMark, b => .ok b.mark_
  | .opReset, b => b.reset
  | .opLimit n, b => b.limit_ n
  | .opPosition n, b => b.position_ n
  | .opClear, b => .ok b.clear
  | .opFlip, b => .ok b.flip
  | .opRewind, b => .ok b.rewind

/-- A sequence of cursor operations, stopping at the first failure. -/
def runOps : List CursorOp → Buffer → Except String Buffer
  | [], b => .ok b
  | op :: ops, b => do
    let b1 ← stepOp op b
    runOps ops b1

theorem stepOp_valid {op : CursorOp} {b b' : Buffer} (hv : b.valid)
    (h : stepOp op b = .ok b') : b'.valid := by
  cases op with
  | opMark =>
    simp only [stepOp] at h
    injection h with h
    subst h
    simp only [Buffer.valid, Buffer.mark_, true_or, or_true, true_and, and_true] at *
    omega
  | opReset =>
    simp only [stepOp, Buffer.reset] at h
    split at h
    · exact absurd h (by simp)
    · injection h with h
      subst h
      simp only [Buffer.valid] at *
      omega
  | opLimit n =>
    simp only [stepOp, Buffer.limit_] at h
    split at h
    · exact absurd h (by simp)
    · injection h with h
      subst h
      split_ifs <;>
        (simp only [Buffer.valid, true_or, or_true, true_and, and_true] at *
         omega)
  | opPosition n =>
    simp only [stepOp, Buffer.position_] at h
    split at h
    · exact absurd h (by simp)
    · injection h with h
      subst h
      split_ifs <;>
        (simp only [Buffer.valid, true_or, or_true, true_and, and_true] at *
         omega)
  | opClear =>
    simp only [stepOp] at h
    injection h with h
    subst h
    simp only [Buffer.valid, Buffer.clear, true_or, or_true, true_and, and_true] at *
    omega
  | opFlip =>
    simp only [stepOp] at h
    injection h with h
    subst h
    simp only [Buffer.valid, Buffer.flip, true_or, or_true, true_and, and_true] at *
    omega
  | opRewind =>
    simp only [stepOp] at h
    injection h with h
    subst h
    simp only [Buffer.valid, Buffer.rewind, true_or, or_true, true_and, and_true] at *
    omega

/-- C4: from a valid cursor state, every successful run of a sequence of
cursor operations ends in a valid state.  Quantifying over all sequences
covers every prefix of a run, so the invariant holds after every single
operation of any sequence. -/
theorem C4_invariant_preserved (ops : List CursorOp) (b b' : Buffer)
    (hv : b.valid) (h : runOps ops b = .ok b') : b'.valid := by
  induction ops generalizing b with
  | nil =>
    simp only [runOps] at h
    injection h with h
    subst h
    exact hv
  | cons op ops ih =>
    simp only [runOps] at h
    cases hs : stepOp op b with
    | error e =>
      rw [hs] at h
      exact absurd h (by simp [exc_bind_error])
    | ok b1 =>
      rw [hs, exc_bind_ok] at h
      exact ih b1 (stepOp_valid hv hs) h

/-- Witness for `C4_invariant_preserved`: an eight-operation run including
`flip`, `clear` and `rewind` composed in sequence. -/
theorem C4_invariant_preserved_witness :
    Buffer.valid ⟨-1, 0, 8, 10⟩ ∧ Buffer.valid ⟨-1, 0, 10, 10⟩ :=
  ⟨by decide,
    C4_invariant_preserved
      [.opMark, .opPosition 3, .opLimit 4, .opMark, .opReset, .opFlip,
        .opClear, .opRewind]
      ⟨-1, 0, 8, 10⟩ ⟨-1, 0, 10, 10⟩ (by decide) rfl⟩

theorem put_ok (m p l c : Int) (hb : List Nat) (off : Int) (x : Nat)
    (h1 : 0 ≤ p) (h2 : p < l) (h3 : 0 ≤ off)
    (h4 : off + l ≤ (hb.length : Int)) (h5 : (hb.length : Int) < 2147483648) :
    CloneByteBuffer.put ⟨⟨⟨m, p, l, c⟩, false⟩, hb, off⟩ x =
      .ok ⟨⟨⟨m, p + 1, l, c⟩, false⟩, hb.set (off + p).toNat x, off⟩ := by
  unfold CloneByteBuffer.put CloneByteBuffer.put_i CloneByteBuffer.put_idx_
    Buffer.next_put_index Buffer.check_index CloneByteBuffer.ix
  dsimp only
  rw [if_neg (by omega : ¬ p ≥ l)]
  dsimp only [Bind.bind, Except.bind]
  rw [if_neg (by omega : ¬ (p < 0 ∨ p ≥ l))]
  dsimp only [Bind.bind, Except.bind]
  rw [usizeOf_eq_toNat (by omega) (by omega)]
  rw [if_pos (by omega : (p + off).toNat < hb.length)]
  rw [show p + off = off + p from by ring]

theorem get_ok (m p l c : Int) (hb : List Nat) (off : Int) (v : Nat)
    (h1 : 0 ≤ p) (h2 : p < l) (h3 : 0 ≤ off)
    (h4 : off + l ≤ (hb.length : Int)) (h5 : (hb.length : Int) < 2147483648)
    (hv : hb.get? (off + p).toNat = some v) :
    CloneByteBuffer.get ⟨⟨⟨m, p, l, c⟩, false⟩, hb, off⟩ =
      .ok (v, ⟨⟨⟨m, p + 1, l, c⟩, false⟩, hb, off⟩) := by
  unfold CloneByteBuffer.get CloneByteBuffer.get_idx_ Buffer.next_get_index
    CloneByteBuffer.ix
  dsimp only
  rw [if_neg (by omega : ¬ p ≥ l)]
  dsimp only [Bind.bind, Except.bind]
  rw [usizeOf_eq_toNat (by omega) (by omega)]
  rw [show p + off = off + p from by ring, hv]

theorem buffer_new__ok {mark pos limit cap : Int}
    (hc : ¬ cap < 0) (hm : ¬ (mark > 0 ∧ mark > pos)) :
    Buffer.new_ mark pos limit cap = .ok ⟨mark, pos, limit, cap⟩ := by
  unfold Buffer.new_
  rw [if_neg hc, if_neg hm]

theorem limit__ok {b : Buffer} {n : Int} (hval : ¬ (n > b.cap ∨ n < 0))
    (hpos : ¬ b.position > n) (hmark : ¬ b.mark > n) :
    b.limit_ n = .ok { b with limit := n } := by
  unfold Buffer.limit_
  rw [if_neg hval]
  dsimp only
  rw [if_neg hpos, if_neg hmark]

theorem bytebuffer_new__ok (mark pos limit cap : Int)
    (hc : 0 ≤ cap) (hm : ¬ (mark > 0 ∧ mark > pos))
    (hl : 0 ≤ limit) (hlc : limit ≤ cap)
    (hp : 0 ≤ pos) (hpl : pos ≤ limit) (hm2 : mark ≤ limit)
    (hm3 : mark ≤ pos) :
    ByteBuffer.new_ mark pos limit cap = .ok ⟨⟨mark, pos, limit, cap⟩, false⟩ := by
  have hbn : Buffer.new_ mark pos limit cap = .ok ⟨mark, pos, limit, cap⟩ :=
    buffer_new__ok (by omega) hm
  unfold ByteBuffer.new_ Buffer.init
  rw [hbn]
  dsimp only [Bind.bind, Except.bind]
  rw [hbn]
  dsimp only [Bind.bind, Except.bind]
  rw [limit__ok (show ¬ (limit > cap ∨ limit < 0) by omega)
    (show ¬ pos > limit by omega) (show ¬ mark > limit by omega)]
  dsimp only [Bind.bind, Except.bind]
  rw [position__ok (show 0 ≤ pos by omega) (show pos ≤ limit by omega)
    (show mark ≤ pos by omega)]

/-- A sequence of cursor-advancing single-byte writes, stopping at the
first failure. -/
def putList (s : CloneByteBuffer) : List Nat → Except String CloneByteBuffer
  | [] => .ok s
  | x :: xs => do
    let s1 ← s.put x
    putList s1 xs

/-- `n` cursor-advancing single-byte reads, collecting the bytes in
order. -/
def getN (s : CloneByteBuffer) : Nat → Except String (CloneByteBuffer × List Nat)
  | 0 => .ok (s, [])
  | n + 1 => do
    let (v, s1) ← s.get
    let (s2, vs) ← getN s1 n
    .ok (s2, v :: vs)

theorem putList_spec (xs : List Nat) :
    ∀ (m p l c : Int) (hb : List Nat) (off : Int),
      0 ≤ p → p + xs.length ≤ l → 0 ≤ off →
      off + l ≤ (hb.length : Int) → (hb.length : Int) < 2147483648 →
      ∃ hb1, putList ⟨⟨⟨m, p, l, c⟩, false⟩, hb, off⟩ xs =
          .ok ⟨⟨⟨m, p + xs.length, l, c⟩, false⟩, hb1, off⟩ ∧
        hb1.length = hb.length ∧
        (∀ k, k < xs.length → hb1.get? ((off + p).toNat + k) = xs.get? k) ∧
        (∀ j, j < (off + p).toNat ∨ (off + p).toNat + xs.length ≤ j →
          hb1.get? j = hb.get? j) := by
  induction xs with
  | nil =>
    intro m p l c hb off hp hpl hoff hol hsmall
    refine ⟨hb, ?_, rfl, fun k hk => absurd hk (by simp), fun j _ => rfl⟩
    simp only [putList, List.length_nil, Nat.cast_zero, add_zero]
  | cons x xs ih =>
    intro m p l c hb off hp hpl hoff hol hsmall
    have hlen : ((x :: xs).length : Int) = (xs.length : Int) + 1 := by
      simp [List.length_cons]
    have hpl2 : p + 1 + (xs.length : Int) ≤ l := by rw [hlen] at hpl; omega
    have hput := put_ok m p l c hb off x hp (by omega) hoff hol hsmall
    obtain ⟨hb1, heq, hlen1, hcopy, hkeep⟩ :=
      ih m (p + 1) l c (hb.set (off + p).toNat x) off (by omega) (by omega)
        hoff (by rw [List.length_set]; omega) (by rw [List.length_set]; omega)
    refine ⟨hb1, ?_, ?_, ?_, ?_⟩
    · show putList ⟨⟨⟨m, p, l, c⟩, false⟩, hb, off⟩ (x :: xs) = _
      unfold putList
      rw [hput]
      dsimp only [Bind.bind, Except.bind]
      rw [heq]
      have hpp : p + 1 + (xs.length : Int) = p + ((x :: xs).length : Int) := by
        rw [hlen]; ring
      rw [hpp]
    · rw [hlen1, List.length_set]
    · intro k hk
      cases k with
      | zero =>
        have hidx : (off + p).toNat < hb.length := by omega
        have h0 : hb1.get? ((off + p).toNat + 0) =
            (hb.set (off + p).toNat x).get? ((off + p).toNat) := by
          have := hkeep ((off + p).toNat) (Or.inl (by omega))
          simpa using this
        rw [h0, List.get?_set_eq_of_lt x hidx]
        rfl
      | succ k1 =>
        have h1 : (off + p).toNat + (k1 + 1) = (off + (p + 1)).toNat + k1 := by
          omega
        rw [h1]
        have := hcopy k1 (by simp [List.length_cons] at hk; omega)
        rw [this]
        rfl
    · intro j hj
      have h1 : hb1.get? j = (hb.set (off + p).toNat x).get? j := by
        apply hkeep
        simp only [List.length_cons] at hj
        omega
      rw [h1, List.get?_set_ne x hb (by omega)]

theorem getN_spec (n : Nat) :
    ∀ (m p l c : Int) (hb : List Nat) (off : Int),
      0 ≤ p → p + n ≤ l → 0 ≤ off →
      off + l ≤ (hb.length : Int) → (hb.length : Int) < 2147483648 →
      ∃ out, getN ⟨⟨⟨m, p, l, c⟩, false⟩, hb, off⟩ n =
          .ok (⟨⟨⟨m, p + n, l, c⟩, false⟩, hb, off⟩, out) ∧
        out.length = n ∧
        (∀ k, k < n → out.get? k = hb.get? ((off + p).toNat + k)) := by
  induction n with
  | zero =>
    intro m p l c hb off hp hpl hoff hol hsmall
    refine ⟨[], ?_, rfl, fun k hk => absurd hk (by omega)⟩
    simp only [getN, Nat.cast_zero, add_zero]
  | succ n1 ih =>
    intro m p l c hb off hp hpl hoff hol hsmall
    have hidx : (off + p).toNat < hb.length := by omega
    obtain ⟨v, hv⟩ : ∃ v, hb.get? (off + p).toNat = some v := by
      cases h : hb.get? (off + p).toNat with
      | none => exact absurd (List.get?_eq_none.mp h) (by omega)
      | some v => exact ⟨v, rfl⟩
    have hget := get_ok m p l c hb off v hp (by omega) hoff hol hsmall hv
    obtain ⟨out, heq, hlen, hcopy⟩ :=
      ih m (p + 1) l c hb off (by omega) (by omega) hoff hol hsmall
    refine ⟨v :: out, ?_, by simp [hlen], ?_⟩
    · unfold getN
      rw [hget]
      dsimp only [Bind.bind, Except.bind]
      rw [heq]
      have hpp : p + 1 + (n1 : Int) = p + ((n1 : Int) + 1) := by ring
      have hc2 : ((n1 + 1 : Nat) : Int) = (n1 : Int) + 1 := by push_cast; ring
      rw [hpp, ← hc2]
    · intro k hk
      cases k with
      | zero =>
        simpa using hv.symm
      | succ k1 =>
        have h1 : (off + p).toNat + (k1 + 1) = (off + (p + 1)).toNat + k1 := by
          omega
        show out.get? k1 = hb.get? ((off + p).toNat + (k1 + 1))
        rw [h1]
        exact hcopy k1 (by omega)

/-- C9: on a freshly constructed view (`new2 cap limit`), writing the
bytes `xs` with single-byte `put` (which succeeds exactly when
`xs.length ≤ limit`), then `flip`, yields `position = 0` and
`limit = xs.length`, and `xs.length` single-byte `get` calls return
exactly `xs` in order. -/
theorem C9_flip_round_trip (cap limit : Int) (xs : List Nat)
    (h1 : 0 ≤ limit) (h2 : limit ≤ cap) (h3 : cap < 2147483648)
    (hn : (xs.length : Int) ≤ limit) :
    ∃ s1 s3 out,
      CloneByteBuffer.new2 cap limit =
        .ok ⟨⟨⟨-1, 0, limit, cap⟩, false⟩, List.replicate cap.toNat 0, 0⟩ ∧
      putList ⟨⟨⟨-1, 0, limit, cap⟩, false⟩, List.replicate cap.toNat 0, 0⟩ xs
        = .ok s1 ∧
      s1.flip.position = 0 ∧ s1.flip.limit = (xs.length : Int) ∧
      getN s1.flip xs.length = .ok (s3, out) ∧ out = xs := by
  have hnew : CloneByteBuffer.new2 cap limit =
      .ok ⟨⟨⟨-1, 0, limit, cap⟩, false⟩, List.replicate cap.toNat 0, 0⟩ := by
    unfold CloneByteBuffer.new2
    rw [bytebuffer_new__ok (-1) 0 limit cap (by omega) (by omega) h1 h2
      (by omega) (by omega) (by omega) (by omega)]
    rfl
  have hrep : (((List.replicate cap.toNat 0).length : Nat) : Int) = cap := by
    rw [List.length_replicate]
    omega
  obtain ⟨hb1, hput, hlen1, hcopy, hkeep⟩ :=
    putList_spec xs (-1) 0 limit cap (List.replicate cap.toNat 0) 0
      le_rfl (by omega) le_rfl (by omega) (by omega)
  obtain ⟨out, hget, holen, hocopy⟩ :=
    getN_spec xs.length (-1) 0 (0 + (xs.length : Int)) cap hb1 0
      le_rfl (by omega) le_rfl (by rw [hlen1]; omega) (by rw [hlen1]; omega)
  have hout : out = xs := by
    apply List.ext_get?
    intro i
    by_cases hi : i < xs.length
    · rw [hocopy i hi, hcopy i hi]
    · rw [List.get?_eq_none.mpr (by omega), List.get?_eq_none.mpr (by omega)]
  refine ⟨⟨⟨⟨-1, 0 + (xs.length : Int), limit, cap⟩, false⟩, hb1, 0⟩,
    ⟨⟨⟨-1, 0 + (xs.length : Int), 0 + (xs.length : Int), cap⟩, false⟩, hb1, 0⟩,
    out, hnew, hput, rfl, ?_, ?_, hout⟩
  · show (0 : Int) + (xs.length : Int) = (xs.length : Int)
    omega
  · exact hget

/-- Witness for `C9_flip_round_trip`: capacity 4, limit 3, bytes `[7, 8]`. -/
theorem C9_flip_round_trip_witness :
    ∃ s1 s3 out,
      CloneByteBuffer.new2 4 3 =
        .ok ⟨⟨⟨-1, 0, 3, 4⟩, false⟩, List.replicate (4 : Int).toNat 0, 0⟩ ∧
      putList ⟨⟨⟨-1, 0, 3, 4⟩, false⟩, List.replicate (4 : Int).toNat 0, 0⟩
        [7, 8] = .ok s1 ∧
      s1.flip.position = 0 ∧
      s1.flip.limit = (([7, 8] : List Nat).length : Int) ∧
      getN s1.flip ([7, 8] : List Nat).length = .ok (s3, out) ∧
      out = [7, 8] :=
  C9_flip_round_trip 4 3 [7, 8] (by decide) (by decide) (by decide) (by decide)
